import Mathlib

/-
Verification of the BLS-over-bn128 signature module (`src/bn128/mod.rs`).

The module is embedded shallowly.  The elliptic-curve / pairing arithmetic
library (`bn`), the SHA-256 implementation (`sha2`) and the error enum
(`error.rs`) are not part of the sources; following the specification they
are treated as an external provider: the embedding is parameterised by a
`Provider` record holding exactly the operations `mod.rs` calls, and the
properties the specification promises of the provider are collected in the
`ProviderOk` predicate.  A small executable instance (`toyProvider`) with a
bilinear pairing over `ZMod 65537` is used to evaluate the embedded
operations on concrete byte strings.
-/

namespace BLSBn128

/-- Big-endian serialization of a natural number into `k` bytes
(`U256::to_big_endian`, `BigEndian::write_u128`): most significant byte
first, value taken modulo `256 ^ k`. -/
def natToBE : ℕ → ℕ → List ℕ
  | _, 0 => []
  | n, k + 1 => natToBE (n / 256) k ++ [n % 256]

/-- Big-endian interpretation of a byte list as a natural number. -/
def beNat (bytes : List ℕ) : ℕ := bytes.foldl (fun acc b => acc * 256 + b) 0

/-- The bn128 base-field modulus, `Fq::modulus()` of the arithmetic
provider. -/
def fqModulus : ℕ :=
  21888242871839275222246405745257275088696311157297823662689037894645226208583

instance : NeZero fqModulus := ⟨by decide⟩

/-- Base-field elements.  The provider's `Fq` is the prime field modulo
`fqModulus`; `into_u256` returns the canonical representative, which is
`ZMod.val` here. -/
abbrev Fq : Type := ZMod fqModulus

/-- Quadratic-extension elements `Fq2`, a (real, imaginary) pair of
base-field elements, as the provider exposes them. -/
structure Fq2 where
  real : Fq
  imaginary : Fq
  deriving DecidableEq

/-- Negation on `Fq2` (the provider's `-y`), componentwise negation in the
prime field; forced by the field structure, used by `to_compressed`. -/
def fq2Negate (c : Fq2) : Fq2 := ⟨-c.real, -c.imaginary⟩

/-- The error enum of the module.  Modelled from the spec: `error.rs` is
not among the sources, so the variants are the spec's error taxonomy
(section 7); the source's `Error::Unknown` at the affine-normalization
sites is the spec's `InvalidPoint`. -/
inductive Error where
  | InvalidScalar
  | DecodeError
  | HashToPointError
  | InvalidPoint
  | VerificationFailed
  deriving DecidableEq

/-- Limb `l` (128 bits, little-endian limb order) of a 512-bit value, as
stored in the provider's `U512`. -/
def u512Limb (n l : ℕ) : ℕ := n / 2 ^ (128 * l) % 2 ^ 128

/-- The 64-byte buffer built by `PublicKey::to_compressed`: the four
128-bit limbs written big-endian, most significant limb first. -/
def u512ToBytes (n : ℕ) : List ℕ :=
  natToBE (u512Limb n 3) 16 ++ natToBE (u512Limb n 2) 16 ++
    natToBE (u512Limb n 1) 16 ++ natToBE (u512Limb n 0) 16

/-- `PublicKey::to_u512`: combine an `Fq2` value into one 512-bit integer,
`U512::new(&imaginary, &real, &modulus) = imaginary * modulus + real`. -/
def to_u512 (point : Fq2) : ℕ := point.imaginary.val * fqModulus + point.real.val

/-- The external curve-arithmetic provider (the `bn` crate, plus the SHA-256
of the `sha2` crate), exposing exactly the operations `mod.rs` consumes.
Modelled from the spec: the provider is declared out of scope there and
described only through this contract. -/
structure Provider where
  Fr : Type
  G1 : Type
  G2 : Type
  Gt : Type
  /-- order of the scalar field -/
  rOrder : ℕ
  /-- the scalar with a given canonical value -/
  frOfNat : ℕ → Fr
  /-- `Fr::from_slice` -/
  frFromSlice : List ℕ → Except Error Fr
  /-- `G1::zero()` -/
  g1Zero : G1
  /-- point addition in G1 -/
  g1Add : G1 → G1 → G1
  /-- scalar multiplication in G1 -/
  g1Smul : G1 → Fr → G1
  /-- `G1::from_compressed` -/
  g1FromCompressed : List ℕ → Except Error G1
  /-- `AffineG1::from_jacobian` followed by coordinate extraction; `none`
  when the point cannot be normalized (identity) -/
  g1ToAffine : G1 → Option (Fq × Fq)
  /-- `G2::zero()` -/
  g2Zero : G2
  /-- `G2::one()`, the G2 generator -/
  g2One : G2
  /-- point addition in G2 -/
  g2Add : G2 → G2 → G2
  /-- point negation in G2 -/
  g2Neg : G2 → G2
  /-- scalar multiplication in G2 -/
  g2Smul : G2 → Fr → G2
  /-- `G2::from_compressed` -/
  g2FromCompressed : List ℕ → Except Error G2
  /-- `AffineG2::from_jacobian` followed by coordinate extraction -/
  g2ToAffine : G2 → Option (Fq2 × Fq2)
  /-- `Gt::one()`, the target-group identity -/
  gtOne : Gt
  /-- target-group multiplication -/
  gtMul : Gt → Gt → Gt
  /-- target-group equality test (`==`) -/
  gtBeq : Gt → Gt → Bool
  /-- the bilinear pairing -/
  pairing : G1 → G2 → Gt
  /-- `pairing_batch`: the product of the pairings of the listed pairs -/
  pairingBatch : List (G1 × G2) → Gt
  /-- `sha2::Sha256` digest of a byte string -/
  sha256 : List ℕ → List ℕ

variable (P : Provider)

/-- `Bn128::calculate_sha256`: delegates to the `sha2` crate. -/
def calculate_sha256 (bytes : List ℕ) : List ℕ := P.sha256 bytes

/-- `Bn128::arbitrary_string_to_point`: prepend the tag byte `0x02` and
parse as a compressed G1 point. -/
def arbitrary_string_to_point (data : List ℕ) : Except Error P.G1 :=
  P.g1FromCompressed (0x02 :: data)

/-- `Bn128::hash_to_try_and_increment`.  The buffer is
`[0xFF, 0x01] ++ msg ++ [0x00]`; the Rust iterator `0..255` yields the
counters `0, …, 254` (`List.range 255`), each written into the trailing
byte; `find_map` returns the first successful decode.  The `_public_key`
argument is unused, as in the source. -/
def hash_to_try_and_increment (_public_key msg : List ℕ) : Except Error P.G1 :=
  let v : List ℕ := [0xFF, 0x01] ++ msg ++ [0x00]
  let position := v.length - 1
  let point := (List.range 255).findSome? (fun ctr =>
    let w := v.set position ctr
    let attempted_hash := calculate_sha256 P w
    (arbitrary_string_to_point P attempted_hash).toOption)
  match point with
  | some pt => Except.ok pt
  | none => Except.error Error.HashToPointError

/-- `Bn128::to_compressed_g1`: normalize to affine (failing on the
identity), then tag byte `0x03`/`0x02` by the parity of `y` (`get_bit 0`)
followed by the 32 big-endian bytes of `x`.  (`to_big_endian` on a 32-byte
buffer and `get_bit 0` never fail.) -/
def to_compressed_g1 (point : P.G1) : Except Error (List ℕ) :=
  match P.g1ToAffine point with
  | none => Except.error Error.InvalidPoint
  | some (x, y) =>
      Except.ok ((if y.val % 2 = 1 then 3 else 2) :: natToBE x.val 32)

/-- `PrivateKey`: wraps a scalar. -/
structure PrivateKey where
  sk : P.Fr

/-- `PublicKey`: wraps a G2 point. -/
structure PublicKey where
  pk : P.G2

/-- `PrivateKey::from_sk`. -/
def PrivateKey.from_sk (s : P.Fr) : PrivateKey P := ⟨s⟩

/-- `PrivateKey::to_public`: `G2::one() * sk`. -/
def PrivateKey.to_public (key : PrivateKey P) : Except Error (PublicKey P) :=
  Except.ok ⟨P.g2Smul P.g2One key.sk⟩

/-- `PublicKey::from_compressed`. -/
def PublicKey.from_compressed (bytes : List ℕ) : Except Error (PublicKey P) := do
  let uncompressed ← P.g2FromCompressed bytes
  Except.ok ⟨uncompressed⟩

/-- `PublicKey::to_compressed`: normalize to affine, choose the tag byte by
comparing the combined 512-bit integers of `y` and `-y`, and serialize the
combined integer of `x` limb-wise. -/
def PublicKey.to_compressed (pub : PublicKey P) : Except Error (List ℕ) :=
  match P.g2ToAffine pub.pk with
  | none => Except.error Error.InvalidPoint
  | some (x, y) =>
      let signByte : ℕ := if to_u512 y > to_u512 (fq2Negate y) then 0x0b else 0x0a
      let compressed := to_u512 x
      Except.ok (signByte :: u512ToBytes compressed)

/-- `Bn128::derive_public_key`.  The source slices `&secret_key[0..32]`,
which panics when the input is shorter than 32 bytes; the panic is
modelled as `none`. -/
def derive_public_key (secret_key : List ℕ) : Option (Except Error (List ℕ)) :=
  if 32 ≤ secret_key.length then
    some (do
      let scalar ← P.frFromSlice (secret_key.take 32)
      let key := PrivateKey.from_sk P scalar
      let pub ← PrivateKey.to_public P key
      PublicKey.to_compressed P pub)
  else none

/-- `Bn128::sign`: derive the public key (propagating its panic and error),
hash the message to a G1 point, parse the whole secret-key slice as the
scalar, multiply and compress. -/
def sign (secret_key msg : List ℕ) : Option (Except Error (List ℕ)) :=
  match derive_public_key P secret_key with
  | none => none
  | some res =>
      some (do
        let public_key ← res
        let hash_point ← hash_to_try_and_increment P public_key msg
        let sk ← P.frFromSlice secret_key
        let signature := P.g1Smul hash_point sk
        to_compressed_g1 P signature)

/-- `Bn128::verify`: batched pairing of `(H(m), PK)` and `(S, -G2::one())`,
succeeding iff the product is `Gt::one()`. -/
def verify (public_key signature msg : List ℕ) : Except Error Unit := do
  let hash_point ← hash_to_try_and_increment P public_key msg
  let public_key_point ← P.g2FromCompressed public_key
  let signature_point ← P.g1FromCompressed signature
  let vals := [(hash_point, public_key_point), (signature_point, P.g2Neg P.g2One)]
  let mul := P.pairingBatch vals
  if P.gtBeq mul P.gtOne then Except.ok () else Except.error Error.VerificationFailed

/-- `Bn128::aggregate_public_keys`: `try_fold` from `G2::zero()`, decoding
and adding each key, then compress the sum. -/
def aggregate_public_keys (public_keys : List (List ℕ)) : Except Error (List ℕ) := do
  let agg ← public_keys.foldlM (fun acc compressed => do
    let public_key ← PublicKey.from_compressed P compressed
    Except.ok (P.g2Add acc public_key.pk)) P.g2Zero
  PublicKey.to_compressed P ⟨agg⟩

/-- `Bn128::aggregate_signatures`: `try_fold` from `G1::zero()`, decoding
and adding each signature, then compress the sum. -/
def aggregate_signatures (signatures : List (List ℕ)) : Except Error (List ℕ) := do
  let agg ← signatures.foldlM (fun acc compressed => do
    let signature ← P.g1FromCompressed compressed
    Except.ok (P.g1Add acc signature)) P.g1Zero
  to_compressed_g1 P agg

/-- The properties the specification assumes of the external provider
(sections 1, 3, 4.1 and the glossary): scalar parsing reduces the
big-endian value of the whole slice and rejects values outside the scalar
field; the identity has no affine form; the compressed-point parsers invert
the canonical encodings and fail only with `DecodeError`; equality in the
target group is decided by `==`; `pairing_batch` is the product of the
pairings, and the pairing is bilinear (stated through the consequences the
verification equation needs). -/
structure ProviderOk (P : Provider) : Prop where
  frFromSlice_eq : ∀ bytes, P.frFromSlice bytes =
    if beNat bytes < P.rOrder then Except.ok (P.frOfNat (beNat bytes))
    else Except.error Error.InvalidScalar
  g1_affine_zero : P.g1ToAffine P.g1Zero = none
  g2_affine_zero : P.g2ToAffine P.g2Zero = none
  g1_decode_encode : ∀ pt x y, P.g1ToAffine pt = some (x, y) →
    P.g1FromCompressed ((if y.val % 2 = 1 then 3 else 2) :: natToBE x.val 32) =
      Except.ok pt
  g2_decode_encode : ∀ pt x y, P.g2ToAffine pt = some (x, y) →
    P.g2FromCompressed
        ((if to_u512 y > to_u512 (fq2Negate y) then 0x0b else 0x0a) ::
          u512ToBytes (to_u512 x)) = Except.ok pt
  g1_decode_error : ∀ bytes e, P.g1FromCompressed bytes = Except.error e →
    e = Error.DecodeError
  g2_decode_error : ∀ bytes e, P.g2FromCompressed bytes = Except.error e →
    e = Error.DecodeError
  gtBeq_iff : ∀ a b, P.gtBeq a b = true ↔ a = b
  pairingBatch_two : ∀ a b c d,
    P.pairingBatch [(a, b), (c, d)] = P.gtMul (P.pairing a b) (P.pairing c d)
  pairing_smul : ∀ pt pt2 s,
    P.pairing (P.g1Smul pt s) pt2 = P.pairing pt (P.g2Smul pt2 s)
  g2Smul_neg : ∀ pt2 s, P.g2Smul (P.g2Neg pt2) s = P.g2Neg (P.g2Smul pt2 s)
  pairing_neg_cancel : ∀ pt pt2,
    P.gtMul (P.pairing pt pt2) (P.pairing pt (P.g2Neg pt2)) = P.gtOne

/-- Order of the groups of the toy provider. -/
def tq : ℕ := 65537

instance : NeZero tq := ⟨by decide⟩

/-- Compressed-G1 parser of the toy provider: a parity tag `0x02`/`0x03`
matching the parity of the 32-byte big-endian payload, which must be a
nonzero value below the group order. -/
def toyG1Decode (bytes : List ℕ) : Except Error (ZMod tq) :=
  match bytes with
  | [] => Except.error Error.DecodeError
  | tag :: rest =>
      if rest.length = 32 ∧ 0 < beNat rest ∧ beNat rest < tq ∧
          ((tag = 2 ∧ beNat rest % 2 = 0) ∨ (tag = 3 ∧ beNat rest % 2 = 1)) then
        Except.ok ((beNat rest : ZMod tq))
      else Except.error Error.DecodeError

/-- Compressed-G2 parser of the toy provider: a tag `0x0a`/`0x0b` followed
by a 64-byte big-endian payload, a nonzero value below the group order. -/
def toyG2Decode (bytes : List ℕ) : Except Error (ZMod tq) :=
  match bytes with
  | [] => Except.error Error.DecodeError
  | tag :: rest =>
      if rest.length = 64 ∧ 0 < beNat rest ∧ beNat rest < tq ∧
          (tag = 0x0a ∨ tag = 0x0b) then
        Except.ok ((beNat rest : ZMod tq))
      else Except.error Error.DecodeError

/-- Affine form of a toy G1 point: the identity has none; any other point
has both coordinates equal to its canonical value, embedded in `Fq`. -/
def toyG1Affine (g : ZMod tq) : Option (Fq × Fq) :=
  if g = 0 then none else some (((g.val : ℕ) : Fq), ((g.val : ℕ) : Fq))

/-- Affine form of a toy G2 point: real parts equal to the canonical value,
imaginary parts zero. -/
def toyG2Affine (g : ZMod tq) : Option (Fq2 × Fq2) :=
  if g = 0 then none
  else some (⟨((g.val : ℕ) : Fq), 0⟩, ⟨((g.val : ℕ) : Fq), 0⟩)

/-- An executable provider instance: all four carriers are `ZMod tq`, the
pairing is multiplication (bilinear over the additive groups, the target
group written additively so its identity is `0`), and the digest function
is constant.  It satisfies every clause of `ProviderOk`
(`toyProviderOk`). -/
def toyProvider : Provider where
  Fr := ZMod tq
  G1 := ZMod tq
  G2 := ZMod tq
  Gt := ZMod tq
  rOrder := tq
  frOfNat := fun n => (n : ZMod tq)
  frFromSlice := fun bytes =>
    if beNat bytes < tq then Except.ok ((beNat bytes : ZMod tq))
    else Except.error Error.InvalidScalar
  g1Zero := 0
  g1Add := fun a b => a + b
  g1Smul := fun g s => g * s
  g1FromCompressed := toyG1Decode
  g1ToAffine := toyG1Affine
  g2Zero := 0
  g2One := 1
  g2Add := fun a b => a + b
  g2Neg := fun g => -g
  g2Smul := fun g s => g * s
  g2FromCompressed := toyG2Decode
  g2ToAffine := toyG2Affine
  gtOne := 0
  gtMul := fun a b => a + b
  gtBeq := fun a b => decide (a = b)
  pairing := fun a b => a * b
  pairingBatch := fun vals => vals.foldl (fun acc pr => acc + pr.1 * pr.2) 0
  sha256 := fun _ => natToBE 2 32

/-- A second toy provider, identical except that its digest function
depends on the trailing counter byte: the digest decodes as a G1 point
exactly when the hashed buffer ends in the byte `255`. -/
def toy2Provider : Provider :=
  { toyProvider with
    sha256 := fun v => if v.getLast? = some 255 then natToBE 2 32 else natToBE 1 32 }

/-- One attempt of the try-and-increment loop: the buffer with counter
`ctr` in the trailing byte, hashed and decoded with tag `0x02`
(the body of the `find_map` closure, with the in-place counter write made
explicit). -/
def hashAttempt (P : Provider) (msg : List ℕ) (ctr : ℕ) : Option P.G1 :=
  (arbitrary_string_to_point P (P.sha256 ([0xFF, 0x01] ++ msg ++ [ctr]))).toOption

/-- A concrete message. -/
def msg0 : List ℕ := [42]

/-- A 33-byte secret key whose first 32 bytes encode the scalar 1 while the
whole slice encodes the scalar 263. -/
def skLong : List ℕ := natToBE 1 32 ++ [7]

/-- A 32-byte secret key encoding the scalar 3. -/
def sk32 : List ℕ := natToBE 3 32

/-- Compressed toy public key derived from `sk32`. -/
def pk32B : List ℕ := 0x0a :: u512ToBytes 3

/-- Compressed toy signature produced by `sign` from `sk32` and `msg0`. -/
def sig32B : List ℕ := 2 :: natToBE 6 32

/-- Compressed toy public key derived from `skLong` (scalar 1). -/
def pkLongB : List ℕ := 0x0a :: u512ToBytes 1

/-- Compressed toy signature produced by `sign` from `skLong` and `msg0`
(scalar 263, hash point 2). -/
def sigLongB : List ℕ := 2 :: natToBE 526 32

/-! ### Byte-serialization lemmas -/

theorem natToBE_length (n k : ℕ) : (natToBE n k).length = k := by
  induction k generalizing n with
  | zero => simp [natToBE]
  | succ k ih => simp [natToBE, ih]

theorem beNat_append (xs : List ℕ) (b : ℕ) :
    beNat (xs ++ [b]) = beNat xs * 256 + b := by
  simp [beNat, List.foldl_append]

theorem beNat_natToBE_mod (k n : ℕ) : beNat (natToBE n k) = n % 256 ^ k := by
  induction k generalizing n with
  | zero => simp [natToBE, beNat, Nat.mod_one]
  | succ k ih =>
      rw [show natToBE n (k + 1) = natToBE (n / 256) k ++ [n % 256] from rfl,
        beNat_append, ih, pow_succ', Nat.mod_mul]
      ring

theorem beNat_natToBE {k n : ℕ} (h : n < 256 ^ k) : beNat (natToBE n k) = n := by
  rw [beNat_natToBE_mod, Nat.mod_eq_of_lt h]

theorem natToBE_split (n a b : ℕ) :
    natToBE n (a + b) = natToBE (n / 256 ^ b) a ++ natToBE (n % 256 ^ b) b := by
  induction b generalizing n with
  | zero => simp [natToBE]
  | succ b ih =>
      have h1 : n % 256 ^ (b + 1) / 256 = n / 256 % 256 ^ b := by
        rw [pow_succ', Nat.mod_mul_right_div_self]
      have h2 : n % 256 ^ (b + 1) % 256 = n % 256 :=
        Nat.mod_mod_of_dvd n (dvd_pow_self 256 b.succ_ne_zero)
      have h3 : n / 256 / 256 ^ b = n / 256 ^ (b + 1) := by
        rw [Nat.div_div_eq_div_mul, ← pow_succ']
      rw [show natToBE n (a + (b + 1)) = natToBE (n / 256) (a + b) ++ [n % 256] from rfl,
        ih, List.append_assoc, h3,
        show natToBE (n % 256 ^ (b + 1)) (b + 1) =
          natToBE (n % 256 ^ (b + 1) / 256) b ++ [n % 256 ^ (b + 1) % 256] from rfl,
        h1, h2]

theorem u512ToBytes_eq {n : ℕ} (h : n < 2 ^ 512) : u512ToBytes n = natToBE n 64 := by
  have e1 : natToBE n 64 = natToBE (n / 2 ^ 128) 48 ++ natToBE (n % 2 ^ 128) 16 := by
    have := natToBE_split n 48 16
    norm_num at this
    exact this
  have e2 : natToBE (n / 2 ^ 128) 48 =
      natToBE (n / 2 ^ 256) 32 ++ natToBE (n / 2 ^ 128 % 2 ^ 128) 16 := by
    have := natToBE_split (n / 2 ^ 128) 32 16
    rw [Nat.div_div_eq_div_mul] at this
    norm_num at this
    exact this
  have e3 : natToBE (n / 2 ^ 256) 32 =
      natToBE (n / 2 ^ 384) 16 ++ natToBE (n / 2 ^ 256 % 2 ^ 128) 16 := by
    have := natToBE_split (n / 2 ^ 256) 16 16
    rw [Nat.div_div_eq_div_mul] at this
    norm_num at this
    exact this
  have e4 : n / 2 ^ 384 % 2 ^ 128 = n / 2 ^ 384 := by
    apply Nat.mod_eq_of_lt
    apply Nat.div_lt_of_lt_mul
    calc n < 2 ^ 512 := h
    _ = 2 ^ 384 * 2 ^ 128 := by norm_num
  rw [e1, e2, e3, u512ToBytes, u512Limb, u512Limb, u512Limb, u512Limb, e4]
  norm_num [List.append_assoc]

/-! ### List lemmas for the hash loop -/

theorem set_append_last (xs : List ℕ) (z c : ℕ) :
    (xs ++ [z]).set xs.length c = xs ++ [c] := by
  induction xs with
  | nil => rfl
  | cons a t ih => simp [ih]

theorem findSome?_range_none_iff {α : Type _} (f : ℕ → Option α) (n : ℕ) :
    (List.range n).findSome? f = none ↔ ∀ i < n, f i = none := by
  simp [List.findSome?_eq_none_iff]

theorem findSome?_range_some_iff {α : Type _} (f : ℕ → Option α) (n : ℕ) (b : α) :
    (List.range n).findSome? f = some b ↔
      ∃ i, i < n ∧ f i = some b ∧ ∀ j < i, f j = none := by
  induction n generalizing b with
  | zero => simp
  | succ n ih =>
      rw [List.range_succ, List.findSome?_append]
      have hsingle : List.findSome? f [n] = f n := by
        cases hfn : f n <;> simp [List.findSome?, hfn]
      cases h : (List.range n).findSome? f with
      | some c =>
          rw [Option.or_some]
          constructor
          · intro hcb
            obtain ⟨i, hi, hfi, hmin⟩ := (ih c).mp h
            exact ⟨i, by omega, by rw [hfi, Option.some.inj hcb], hmin⟩
          · rintro ⟨i, hi, hfi, hmin⟩
            rcases Nat.lt_succ_iff_lt_or_eq.mp hi with hlt | heq
            · have := (ih b).mpr ⟨i, hlt, hfi, hmin⟩
              rw [h] at this
              exact this
            · subst heq
              have hnone : (List.range i).findSome? f = none :=
                (findSome?_range_none_iff f i).mpr hmin
              rw [h] at hnone
              exact absurd hnone (by simp)
      | none =>
          have hall : ∀ j < n, f j = none := (findSome?_range_none_iff f n).mp h
          rw [Option.none_or, hsingle]
          constructor
          · intro hfb
            exact ⟨n, Nat.lt_succ_self n, hfb, hall⟩
          · rintro ⟨i, hi, hfi, hmin⟩
            rcases Nat.lt_succ_iff_lt_or_eq.mp hi with hlt | heq
            · rw [hall i hlt] at hfi
              exact absurd hfi (by simp)
            · subst heq
              exact hfi

/-! ### The hash loop, characterized -/

theorem hash_eq_findSome (P : Provider) (pk msg : List ℕ) :
    hash_to_try_and_increment P pk msg =
      match (List.range 255).findSome? (hashAttempt P msg) with
      | some pt => Except.ok pt
      | none => Except.error Error.HashToPointError := by
  unfold hash_to_try_and_increment
  have hbuf : ∀ ctr : ℕ,
      ([0xFF, 0x01] ++ msg ++ [0x00]).set
          (([0xFF, 0x01] ++ msg ++ [0x00]).length - 1) ctr =
        [0xFF, 0x01] ++ msg ++ [ctr] := by
    intro ctr
    have hlen : ([0xFF, 0x01] ++ msg ++ [0x00]).length - 1 =
        ([0xFF, 0x01] ++ msg).length := by simp
    rw [hlen, set_append_last]
  simp only [calculate_sha256, hbuf]
  rfl

theorem hash_ok_iff (P : Provider) (pk msg : List ℕ) (pt : P.G1) :
    hash_to_try_and_increment P pk msg = Except.ok pt ↔
      ∃ i, i < 255 ∧ hashAttempt P msg i = some pt ∧
        ∀ j < i, hashAttempt P msg j = none := by
  rw [hash_eq_findSome, ← findSome?_range_some_iff]
  cases h : (List.range 255).findSome? (hashAttempt P msg) <;> simp [h]

theorem hash_error_iff (P : Provider) (pk msg : List ℕ) :
    hash_to_try_and_increment P pk msg = Except.error Error.HashToPointError ↔
      ∀ i < 255, hashAttempt P msg i = none := by
  rw [hash_eq_findSome, ← findSome?_range_none_iff]
  cases h : (List.range 255).findSome? (hashAttempt P msg) <;> simp [h]

theorem hash_error_elim (P : Provider) (pk msg : List ℕ) (e : Error)
    (h : hash_to_try_and_increment P pk msg = Except.error e) :
    e = Error.HashToPointError := by
  rw [hash_eq_findSome] at h
  cases hfs : (List.range 255).findSome? (hashAttempt P msg) <;>
    rw [hfs] at h <;> simp at h
  exact h.symm

/-! ### Encoding shapes and round trips -/

theorem to_compressed_g1_shape (P : Provider) (pt : P.G1) (bytes : List ℕ)
    (h : to_compressed_g1 P pt = Except.ok bytes) :
    ∃ x y, P.g1ToAffine pt = some (x, y) ∧
      bytes = (if y.val % 2 = 1 then 3 else 2) :: natToBE x.val 32 := by
  unfold to_compressed_g1 at h
  split at h
  · exact absurd h (by simp)
  · rename_i x y heq
    exact ⟨x, y, heq, (Except.ok.inj h).symm⟩

theorem to_compressed_g2_shape (P : Provider) (pub : PublicKey P) (bytes : List ℕ)
    (h : PublicKey.to_compressed P pub = Except.ok bytes) :
    ∃ x y, P.g2ToAffine pub.pk = some (x, y) ∧
      bytes = (if to_u512 y > to_u512 (fq2Negate y) then 0x0b else 0x0a) ::
        u512ToBytes (to_u512 x) := by
  unfold PublicKey.to_compressed at h
  split at h
  · exact absurd h (by simp)
  · rename_i x y heq
    exact ⟨x, y, heq, (Except.ok.inj h).symm⟩

theorem g1_encode_then_decode (P : Provider) (hok : ProviderOk P) (pt : P.G1)
    (bytes : List ℕ) (h : to_compressed_g1 P pt = Except.ok bytes) :
    P.g1FromCompressed bytes = Except.ok pt := by
  obtain ⟨x, y, haff, rfl⟩ := to_compressed_g1_shape P pt bytes h
  exact hok.g1_decode_encode pt x y haff

theorem g2_encode_then_decode (P : Provider) (hok : ProviderOk P) (pub : PublicKey P)
    (bytes : List ℕ) (h : PublicKey.to_compressed P pub = Except.ok bytes) :
    P.g2FromCompressed bytes = Except.ok pub.pk := by
  obtain ⟨x, y, haff, rfl⟩ := to_compressed_g2_shape P pub bytes h
  exact hok.g2_decode_encode pub.pk x y haff

/-! ### Destructuring the key-derivation, signing and verification chains -/

theorem derive_ok_elim (P : Provider) (sk pkB : List ℕ)
    (h : derive_public_key P sk = some (Except.ok pkB)) :
    32 ≤ sk.length ∧ ∃ s, P.frFromSlice (sk.take 32) = Except.ok s ∧
      PublicKey.to_compressed P ⟨P.g2Smul P.g2One s⟩ = Except.ok pkB := by
  unfold derive_public_key at h
  split at h
  · rename_i h32
    refine ⟨h32, ?_⟩
    simp only [Option.some.injEq] at h
    cases hfs : P.frFromSlice (sk.take 32) with
    | error e =>
        rw [show (do
            let scalar ← P.frFromSlice (sk.take 32)
            let key := PrivateKey.from_sk P scalar
            let pub ← PrivateKey.to_public P key
            PublicKey.to_compressed P pub) =
          Except.bind (P.frFromSlice (sk.take 32)) (fun scalar =>
            Except.bind (PrivateKey.to_public P (PrivateKey.from_sk P scalar))
              (fun pub => PublicKey.to_compressed P pub)) from rfl, hfs] at h
        exact absurd h (by simp [Except.bind])
    | ok s =>
        rw [show (do
            let scalar ← P.frFromSlice (sk.take 32)
            let key := PrivateKey.from_sk P scalar
            let pub ← PrivateKey.to_public P key
            PublicKey.to_compressed P pub) =
          Except.bind (P.frFromSlice (sk.take 32)) (fun scalar =>
            Except.bind (PrivateKey.to_public P (PrivateKey.from_sk P scalar))
              (fun pub => PublicKey.to_compressed P pub)) from rfl, hfs] at h
        exact ⟨s, rfl, h⟩
  · exact absurd h (by simp)

theorem bind_ok_elim {ε α β : Type _} {x : Except ε α} {f : α → Except ε β} {b : β}
    (h : x >>= f = Except.ok b) : ∃ a, x = Except.ok a ∧ f a = Except.ok b := by
  cases x with
  | error e => exact absurd h (by simp [Bind.bind, Except.bind])
  | ok a => exact ⟨a, rfl, h⟩

theorem sign_ok_elim (P : Provider) (sk msg sigB : List ℕ)
    (h : sign P sk msg = some (Except.ok sigB)) :
    ∃ pkB, derive_public_key P sk = some (Except.ok pkB) ∧
      ∃ H, hash_to_try_and_increment P pkB msg = Except.ok H ∧
        ∃ s, P.frFromSlice sk = Except.ok s ∧
          to_compressed_g1 P (P.g1Smul H s) = Except.ok sigB := by
  unfold sign at h
  split at h
  · exact absurd h (by simp)
  · rename_i res hres
    simp only [Option.some.injEq] at h
    obtain ⟨pkB, hpkB, hbody⟩ := bind_ok_elim h
    clear h
    subst hpkB
    obtain ⟨H, hH, hbody2⟩ := bind_ok_elim hbody
    obtain ⟨s, hs, hbody3⟩ := bind_ok_elim hbody2
    exact ⟨pkB, hres, H, hH, s, hs, hbody3⟩

theorem verify_check (P : Provider) (pk sig msg : List ℕ) (H : P.G1) (PK : P.G2)
    (S : P.G1) (hH : hash_to_try_and_increment P pk msg = Except.ok H)
    (hPK : P.g2FromCompressed pk = Except.ok PK)
    (hS : P.g1FromCompressed sig = Except.ok S) :
    verify P pk sig msg =
      if P.gtBeq (P.pairingBatch [(H, PK), (S, P.g2Neg P.g2One)]) P.gtOne
      then Except.ok () else Except.error Error.VerificationFailed := by
  unfold verify
  simp only [hH, hPK, hS, Bind.bind, Except.bind]

theorem verify_hash_error (P : Provider) (pk sig msg : List ℕ) (e : Error)
    (hH : hash_to_try_and_increment P pk msg = Except.error e) :
    verify P pk sig msg = Except.error e := by
  unfold verify
  simp only [hH, Bind.bind, Except.bind]

theorem verify_g2_error (P : Provider) (pk sig msg : List ℕ) (H : P.G1) (e : Error)
    (hH : hash_to_try_and_increment P pk msg = Except.ok H)
    (hPK : P.g2FromCompressed pk = Except.error e) :
    verify P pk sig msg = Except.error e := by
  unfold verify
  simp only [hH, hPK, Bind.bind, Except.bind]

theorem verify_g1_error (P : Provider) (pk sig msg : List ℕ) (H : P.G1) (PK : P.G2)
    (e : Error) (hH : hash_to_try_and_increment P pk msg = Except.ok H)
    (hPK : P.g2FromCompressed pk = Except.ok PK)
    (hS : P.g1FromCompressed sig = Except.error e) :
    verify P pk sig msg = Except.error e := by
  unfold verify
  simp only [hH, hPK, hS, Bind.bind, Except.bind]

/-! ### The toy provider satisfies the contract -/

theorem tq_lt_fqModulus : tq < fqModulus := by decide

theorem toyVal_cast (g : ZMod tq) : ((g.val : ℕ) : Fq).val = g.val :=
  ZMod.val_cast_of_lt (lt_trans (ZMod.val_lt g) tq_lt_fqModulus)

theorem toy_g1_decode_encode (pt : ZMod tq) (x y : Fq)
    (h : toyG1Affine pt = some (x, y)) :
    toyG1Decode ((if y.val % 2 = 1 then 3 else 2) :: natToBE x.val 32) =
      Except.ok pt := by
  unfold toyG1Affine at h
  split at h
  · exact absurd h (by simp)
  · rename_i hne
    simp only [Option.some.injEq, Prod.mk.injEq] at h
    obtain ⟨hx, hy⟩ := h
    subst hx
    subst hy
    rw [toyVal_cast]
    have hlt : pt.val < tq := ZMod.val_lt pt
    have hpos : 0 < pt.val :=
      Nat.pos_of_ne_zero (fun h0 => hne ((ZMod.val_eq_zero pt).mp h0))
    have hbe : beNat (natToBE pt.val 32) = pt.val :=
      beNat_natToBE (lt_trans hlt (by norm_num [tq]))
    have hlen : (natToBE pt.val 32).length = 32 := natToBE_length _ _
    simp only [toyG1Decode]
    rw [hbe]
    rcases Nat.mod_two_eq_zero_or_one pt.val with hpar | hpar
    · rw [if_neg (by omega : ¬ pt.val % 2 = 1),
        if_pos ⟨hlen, hpos, hlt, Or.inl ⟨rfl, hpar⟩⟩,
        ZMod.natCast_rightInverse pt]
    · rw [if_pos hpar, if_pos ⟨hlen, hpos, hlt, Or.inr ⟨rfl, hpar⟩⟩,
        ZMod.natCast_rightInverse pt]

theorem toy_g2_decode_encode (pt : ZMod tq) (x y : Fq2)
    (h : toyG2Affine pt = some (x, y)) :
    toyG2Decode ((if to_u512 y > to_u512 (fq2Negate y) then 0x0b else 0x0a) ::
        u512ToBytes (to_u512 x)) = Except.ok pt := by
  unfold toyG2Affine at h
  split at h
  · exact absurd h (by simp)
  · rename_i hne
    simp only [Option.some.injEq, Prod.mk.injEq] at h
    obtain ⟨hx, hy⟩ := h
    subst hx
    subst hy
    have hlt : pt.val < tq := ZMod.val_lt pt
    have hpos : 0 < pt.val :=
      Nat.pos_of_ne_zero (fun h0 => hne ((ZMod.val_eq_zero pt).mp h0))
    have hvx : to_u512 (⟨((pt.val : ℕ) : Fq), 0⟩ : Fq2) = pt.val := by
      show ZMod.val (0 : Fq) * fqModulus + ZMod.val ((pt.val : ℕ) : Fq) = pt.val
      rw [ZMod.val_zero, toyVal_cast, zero_mul, zero_add]
    have hcne : ((pt.val : ℕ) : Fq) ≠ 0 := by
      intro h0
      have hval := congrArg ZMod.val h0
      rw [toyVal_cast, ZMod.val_zero] at hval
      omega
    have hvy : to_u512 (fq2Negate (⟨((pt.val : ℕ) : Fq), 0⟩ : Fq2)) =
        fqModulus - pt.val := by
      show ZMod.val (-(0 : Fq)) * fqModulus + ZMod.val (-((pt.val : ℕ) : Fq)) =
        fqModulus - pt.val
      rw [neg_zero, ZMod.val_zero, ZMod.neg_val, if_neg hcne, toyVal_cast,
        zero_mul, zero_add]
    have hnogt : ¬ to_u512 (⟨((pt.val : ℕ) : Fq), 0⟩ : Fq2) >
        to_u512 (fq2Negate (⟨((pt.val : ℕ) : Fq), 0⟩ : Fq2)) := by
      rw [hvx, hvy]
      have h1 : (131074 : ℕ) < fqModulus := by decide
      have h2 : pt.val < 65537 := by
        have := hlt
        simpa [tq] using this
      omega
    rw [if_neg hnogt, hvx]
    have hbytes : u512ToBytes pt.val = natToBE pt.val 64 :=
      u512ToBytes_eq (lt_trans hlt (by norm_num [tq]))
    have hbe : beNat (natToBE pt.val 64) = pt.val :=
      beNat_natToBE (lt_trans hlt (by norm_num [tq]))
    have hlen : (natToBE pt.val 64).length = 64 := natToBE_length _ _
    rw [hbytes]
    show (if (natToBE pt.val 64).length = 64 ∧ 0 < beNat (natToBE pt.val 64) ∧
          beNat (natToBE pt.val 64) < tq ∧ ((0x0a : ℕ) = 0x0a ∨ (0x0a : ℕ) = 0x0b)
        then Except.ok ((beNat (natToBE pt.val 64) : ZMod tq))
        else Except.error Error.DecodeError) = Except.ok pt
    rw [hbe]
    have hcond : (natToBE pt.val 64).length = 64 ∧ 0 < pt.val ∧ pt.val < tq ∧
        ((0x0a : ℕ) = 0x0a ∨ (0x0a : ℕ) = 0x0b) := ⟨hlen, hpos, hlt, Or.inl rfl⟩
    rw [if_pos hcond, ZMod.natCast_rightInverse pt]

theorem toy_g1_decode_error (bytes : List ℕ) (e : Error)
    (h : toyG1Decode bytes = Except.error e) : e = Error.DecodeError := by
  cases bytes with
  | nil =>
      simp only [toyG1Decode] at h
      exact (Except.error.inj h).symm
  | cons tag rest =>
      simp only [toyG1Decode] at h
      split at h
      · exact absurd h (by simp)
      · exact (Except.error.inj h).symm

theorem toy_g2_decode_error (bytes : List ℕ) (e : Error)
    (h : toyG2Decode bytes = Except.error e) : e = Error.DecodeError := by
  cases bytes with
  | nil =>
      simp only [toyG2Decode] at h
      exact (Except.error.inj h).symm
  | cons tag rest =>
      simp only [toyG2Decode] at h
      split at h
      · exact absurd h (by simp)
      · exact (Except.error.inj h).symm

theorem toyProviderOk : ProviderOk toyProvider where
  frFromSlice_eq := fun bytes => rfl
  g1_affine_zero := by
    show toyG1Affine 0 = none
    simp [toyG1Affine]
  g2_affine_zero := by
    show toyG2Affine 0 = none
    simp [toyG2Affine]
  g1_decode_encode := by
    have hproj : toyProvider.g1FromCompressed = toyG1Decode := rfl
    have haff : toyProvider.g1ToAffine = toyG1Affine := rfl
    intro pt x y h
    rw [haff] at h
    rw [hproj]
    exact toy_g1_decode_encode pt x y h
  g2_decode_encode := by
    have hproj : toyProvider.g2FromCompressed = toyG2Decode := rfl
    have haff : toyProvider.g2ToAffine = toyG2Affine := rfl
    intro pt x y h
    rw [haff] at h
    rw [hproj]
    exact toy_g2_decode_encode pt x y h
  g1_decode_error := by
    have hproj : toyProvider.g1FromCompressed = toyG1Decode := rfl
    intro bytes e h
    rw [hproj] at h
    exact toy_g1_decode_error bytes e h
  g2_decode_error := by
    have hproj : toyProvider.g2FromCompressed = toyG2Decode := rfl
    intro bytes e h
    rw [hproj] at h
    exact toy_g2_decode_error bytes e h
  gtBeq_iff := by
    refine fun (a : ZMod tq) (b : ZMod tq) => ?_
    show decide (a = b) = true ↔ a = b
    exact decide_eq_true_iff
  pairingBatch_two := by
    refine fun (a : ZMod tq) (b : ZMod tq) (c : ZMod tq) (d : ZMod tq) => ?_
    show List.foldl (fun acc pr => acc + pr.1 * pr.2) (0 : ZMod tq) [(a, b), (c, d)] =
      a * b + c * d
    simp only [List.foldl]
    ring
  pairing_smul := by
    refine fun (pt : ZMod tq) (pt2 : ZMod tq) (s : ZMod tq) => ?_
    show pt * s * pt2 = pt * (pt2 * s)
    ring
  g2Smul_neg := by
    refine fun (pt2 : ZMod tq) (s : ZMod tq) => ?_
    show -pt2 * s = -(pt2 * s)
    ring
  pairing_neg_cancel := by
    refine fun (pt : ZMod tq) (pt2 : ZMod tq) => ?_
    show pt * pt2 + pt * -pt2 = 0
    ring

theorem toy2ProviderOk : ProviderOk toy2Provider where
  frFromSlice_eq := fun bytes => rfl
  g1_affine_zero := by
    show toyG1Affine 0 = none
    simp [toyG1Affine]
  g2_affine_zero := by
    show toyG2Affine 0 = none
    simp [toyG2Affine]
  g1_decode_encode := by
    have hproj : toy2Provider.g1FromCompressed = toyG1Decode := rfl
    have haff : toy2Provider.g1ToAffine = toyG1Affine := rfl
    intro pt x y h
    rw [haff] at h
    rw [hproj]
    exact toy_g1_decode_encode pt x y h
  g2_decode_encode := by
    have hproj : toy2Provider.g2FromCompressed = toyG2Decode := rfl
    have haff : toy2Provider.g2ToAffine = toyG2Affine := rfl
    intro pt x y h
    rw [haff] at h
    rw [hproj]
    exact toy_g2_decode_encode pt x y h
  g1_decode_error := by
    have hproj : toy2Provider.g1FromCompressed = toyG1Decode := rfl
    intro bytes e h
    rw [hproj] at h
    exact toy_g1_decode_error bytes e h
  g2_decode_error := by
    have hproj : toy2Provider.g2FromCompressed = toyG2Decode := rfl
    intro bytes e h
    rw [hproj] at h
    exact toy_g2_decode_error bytes e h
  gtBeq_iff := by
    refine fun (a : ZMod tq) (b : ZMod tq) => ?_
    show decide (a = b) = true ↔ a = b
    exact decide_eq_true_iff
  pairingBatch_two := by
    refine fun (a : ZMod tq) (b : ZMod tq) (c : ZMod tq) (d : ZMod tq) => ?_
    show List.foldl (fun acc pr => acc + pr.1 * pr.2) (0 : ZMod tq) [(a, b), (c, d)] =
      a * b + c * d
    simp only [List.foldl]
    ring
  pairing_smul := by
    refine fun (pt : ZMod tq) (pt2 : ZMod tq) (s : ZMod tq) => ?_
    show pt * s * pt2 = pt * (pt2 * s)
    ring
  g2Smul_neg := by
    refine fun (pt2 : ZMod tq) (s : ZMod tq) => ?_
    show -pt2 * s = -(pt2 * s)
    ring
  pairing_neg_cancel := by
    refine fun (pt : ZMod tq) (pt2 : ZMod tq) => ?_
    show pt * pt2 + pt * -pt2 = 0
    ring

/-! ### Claim theorems -/

set_option maxRecDepth 10000

theorem to_u512_lt (c : Fq2) : to_u512 c < 2 ^ 512 := by
  have h1 : c.imaginary.val < fqModulus := ZMod.val_lt c.imaginary
  have h2 : c.real.val < fqModulus := ZMod.val_lt c.real
  have hp : fqModulus < 2 ^ 256 := by decide
  have hmain : c.imaginary.val * fqModulus + c.real.val < fqModulus * fqModulus := by
    calc c.imaginary.val * fqModulus + c.real.val
        < c.imaginary.val * fqModulus + fqModulus := by omega
      _ = (c.imaginary.val + 1) * fqModulus := by ring
      _ ≤ fqModulus * fqModulus := Nat.mul_le_mul_right _ (by omega)
  calc to_u512 c < fqModulus * fqModulus := hmain
    _ ≤ 2 ^ 256 * 2 ^ 256 := Nat.mul_le_mul (le_of_lt hp) (le_of_lt hp)
    _ = 2 ^ 512 := by norm_num

/-- C1 (counterexample): the claim "verify(derive_public_key(sk), sign(sk, m), m)
succeeds whenever derivation, signing and hashing succeed" fails at the
33-byte secret key `skLong` over the contract-satisfying provider
`toyProvider`: derivation succeeds (using the scalar of the first 32
bytes), hashing and signing succeed (signing uses the scalar of the whole
slice), yet verification fails, because the two scalars disagree. -/
theorem C1_counterexample :
    ProviderOk toyProvider ∧
    derive_public_key toyProvider skLong = some (Except.ok pkLongB) ∧
    sign toyProvider skLong msg0 = some (Except.ok sigLongB) ∧
    hash_to_try_and_increment toyProvider pkLongB msg0 = Except.ok ((2 : ZMod tq)) ∧
    verify toyProvider pkLongB sigLongB msg0 = Except.error Error.VerificationFailed :=
  ⟨toyProviderOk, rfl, rfl, rfl, rfl⟩

/-- C1 (amended): for every provider satisfying the spec's contract, every
secret key whose full-slice scalar parse agrees with its first-32-bytes
scalar parse (in particular every 32-byte key), and every message for which
derivation, signing and hashing succeed, `verify(derive_public_key(sk),
sign(sk, m), m)` succeeds. -/
theorem C1_amended_verify_sign (P : Provider) (hok : ProviderOk P)
    (sk msg pkB sigB : List ℕ)
    (hd : derive_public_key P sk = some (Except.ok pkB))
    (hs : sign P sk msg = some (Except.ok sigB))
    (hagree : P.frFromSlice sk = P.frFromSlice (sk.take 32)) :
    verify P pkB sigB msg = Except.ok () := by
  obtain ⟨h32, s1, hfs1, henc⟩ := derive_ok_elim P sk pkB hd
  obtain ⟨pkB2, hd2, H, hH, s2, hfs2, hsig⟩ := sign_ok_elim P sk msg sigB hs
  rw [hd] at hd2
  have hpkB : pkB = pkB2 := Except.ok.inj (Option.some.inj hd2)
  subst hpkB
  have hs12 : s1 = s2 := by
    rw [hagree, hfs1] at hfs2
    exact Except.ok.inj hfs2
  subst hs12
  have hPK : P.g2FromCompressed pkB = Except.ok (P.g2Smul P.g2One s1) :=
    g2_encode_then_decode P hok ⟨P.g2Smul P.g2One s1⟩ pkB henc
  have hS : P.g1FromCompressed sigB = Except.ok (P.g1Smul H s1) :=
    g1_encode_then_decode P hok (P.g1Smul H s1) sigB hsig
  rw [verify_check P pkB sigB msg H (P.g2Smul P.g2One s1) (P.g1Smul H s1) hH hPK hS]
  have hbatch : P.pairingBatch
      [(H, P.g2Smul P.g2One s1), (P.g1Smul H s1, P.g2Neg P.g2One)] = P.gtOne := by
    rw [hok.pairingBatch_two, hok.pairing_smul, hok.g2Smul_neg,
      hok.pairing_neg_cancel]
  rw [hbatch, if_pos ((hok.gtBeq_iff P.gtOne P.gtOne).mpr rfl)]

/-- C1 (witness): the amended claim at the 32-byte key `sk32` and message
`msg0` over the toy provider. -/
theorem C1_witness :
    derive_public_key toyProvider sk32 = some (Except.ok pk32B) ∧
    sign toyProvider sk32 msg0 = some (Except.ok sig32B) ∧
    verify toyProvider pk32B sig32B msg0 = Except.ok () :=
  ⟨rfl, rfl,
    C1_amended_verify_sign toyProvider toyProviderOk sk32 msg0 pk32B sig32B
      rfl rfl rfl⟩

/-- C2: given a provider satisfying the spec's contract, `verify` succeeds
iff the batched pairing product of `(H(m), PK)` and `(S, -G2::one())` is the
target-group identity, fails with `VerificationFailed` otherwise, and
propagates `HashToPointError` when hashing exhausts and `DecodeError` when
either compressed input fails to parse. -/
theorem C2_verify_characterization (P : Provider) (hok : ProviderOk P)
    (pk sig msg : List ℕ) :
    (∀ e, hash_to_try_and_increment P pk msg = Except.error e →
      e = Error.HashToPointError ∧
        verify P pk sig msg = Except.error Error.HashToPointError) ∧
    (∀ (H : P.G1) e, hash_to_try_and_increment P pk msg = Except.ok H →
      P.g2FromCompressed pk = Except.error e →
      e = Error.DecodeError ∧ verify P pk sig msg = Except.error Error.DecodeError) ∧
    (∀ (H : P.G1) (PK : P.G2) e, hash_to_try_and_increment P pk msg = Except.ok H →
      P.g2FromCompressed pk = Except.ok PK →
      P.g1FromCompressed sig = Except.error e →
      e = Error.DecodeError ∧ verify P pk sig msg = Except.error Error.DecodeError) ∧
    (∀ (H : P.G1) (PK : P.G2) (S : P.G1),
      hash_to_try_and_increment P pk msg = Except.ok H →
      P.g2FromCompressed pk = Except.ok PK →
      P.g1FromCompressed sig = Except.ok S →
      (verify P pk sig msg = Except.ok () ↔
        P.pairingBatch [(H, PK), (S, P.g2Neg P.g2One)] = P.gtOne) ∧
      (P.pairingBatch [(H, PK), (S, P.g2Neg P.g2One)] ≠ P.gtOne →
        verify P pk sig msg = Except.error Error.VerificationFailed)) := by
  refine ⟨?_, ?_, ?_, ?_⟩
  · intro e he
    have h1 := hash_error_elim P pk msg e he
    subst h1
    exact ⟨rfl, verify_hash_error P pk sig msg _ he⟩
  · intro H e hH hPK
    have h1 := hok.g2_decode_error pk e hPK
    subst h1
    exact ⟨rfl, verify_g2_error P pk sig msg H _ hH hPK⟩
  · intro H PK e hH hPK hS
    have h1 := hok.g1_decode_error sig e hS
    subst h1
    exact ⟨rfl, verify_g1_error P pk sig msg H PK _ hH hPK hS⟩
  · intro H PK S hH hPK hS
    rw [verify_check P pk sig msg H PK S hH hPK hS]
    by_cases hb :
        P.gtBeq (P.pairingBatch [(H, PK), (S, P.g2Neg P.g2One)]) P.gtOne = true
    · rw [if_pos hb]
      refine ⟨⟨fun _ => (hok.gtBeq_iff _ _).mp hb, fun _ => rfl⟩, fun hne => ?_⟩
      exact absurd ((hok.gtBeq_iff _ _).mp hb) hne
    · rw [if_neg hb]
      exact ⟨⟨fun h => absurd h (by simp),
        fun h => absurd ((hok.gtBeq_iff _ _).mpr h) hb⟩, fun _ => rfl⟩

/-- C2 (witness): at the toy provider, a 2-byte signature fails to decode,
and `verify` reports `DecodeError`. -/
theorem C2_witness :
    verify toyProvider pk32B [9, 9] msg0 = Except.error Error.DecodeError :=
  ((C2_verify_characterization toyProvider toyProviderOk pk32B [9, 9] msg0).2.2.1
    (2 : ZMod tq) (3 : ZMod tq) Error.DecodeError (by rfl) (by rfl) (by rfl)).2

/-- C3 (counterexample): the claim "hash-to-curve tries every counter from
0 to 255 inclusive (256 attempts) and fails only after all have been
tried" fails on the code, whose Rust iterator `0..255` stops at 254: over
the contract-satisfying provider `toy2Provider` (whose digest decodes as a
point exactly when the buffer ends in the byte 255), the attempt with
counter 255 succeeds, yet `hash_to_try_and_increment` exhausts and fails
with `HashToPointError`. -/
theorem C3_counterexample :
    ProviderOk toy2Provider ∧
    hash_to_try_and_increment toy2Provider [] [] =
      Except.error Error.HashToPointError ∧
    hashAttempt toy2Provider [] 255 = some ((2 : ZMod tq)) :=
  ⟨toy2ProviderOk, rfl, rfl⟩

/-- C3 (amended): for every message, hash-to-curve builds the buffer
`[0xFF, 0x01] ++ m ++ [ctr]`, decodes the digest with the tag byte `0x02`
(`arbitrary_string_to_point`), and over the counters 0 to 254 inclusive
(255 attempts, the Rust range `0..255`) returns the first successful
attempt, failing with `HashToPointError` exactly when every counter in
that range fails. -/
theorem C3_amended_hash_loop (P : Provider) (pk msg : List ℕ) :
    (∀ data, arbitrary_string_to_point P data = P.g1FromCompressed (0x02 :: data)) ∧
    (∀ ctr, hashAttempt P msg ctr =
      (arbitrary_string_to_point P (P.sha256 ([0xFF, 0x01] ++ msg ++ [ctr]))).toOption) ∧
    (∀ pt, hash_to_try_and_increment P pk msg = Except.ok pt ↔
      ∃ i, i < 255 ∧ hashAttempt P msg i = some pt ∧
        ∀ j < i, hashAttempt P msg j = none) ∧
    (hash_to_try_and_increment P pk msg = Except.error Error.HashToPointError ↔
      ∀ i < 255, hashAttempt P msg i = none) :=
  ⟨fun _ => rfl, fun _ => rfl, hash_ok_iff P pk msg, hash_error_iff P pk msg⟩

/-- C3 (witness): on the toy provider the very first counter succeeds and
the hash equals the point it decodes to. -/
theorem C3_witness :
    hash_to_try_and_increment toyProvider pkLongB msg0 = Except.ok ((2 : ZMod tq)) :=
  ((C3_amended_hash_loop toyProvider pkLongB msg0).2.2.1 ((2 : ZMod tq))).mpr
    ⟨0, by omega, rfl, fun j hj => absurd hj (Nat.not_lt_zero j)⟩

/-- C4: for every Group-2 point with an affine form, the compressed
encoding is 65 bytes: a tag equal to `0x0b` if `V(y) > V(-y)` and `0x0a`
otherwise, with `V(c) = imaginary * modulus + real` (`to_u512`), followed
by the 64 big-endian bytes of `V(x)` — the four big-endian 128-bit limbs
written most significant first equal the 512-bit big-endian serialization
(`natToBE _ 64`). -/
theorem C4_g2_encoding (P : Provider) (pub : PublicKey P) (x y : Fq2)
    (haff : P.g2ToAffine pub.pk = some (x, y)) :
    PublicKey.to_compressed P pub = Except.ok
      ((if to_u512 y > to_u512 (fq2Negate y) then 0x0b else 0x0a) ::
        natToBE (to_u512 x) 64) ∧
    ((if to_u512 y > to_u512 (fq2Negate y) then 0x0b else 0x0a) ::
        natToBE (to_u512 x) 64).length = 65 := by
  constructor
  · simp only [PublicKey.to_compressed, haff]
    rw [u512ToBytes_eq (to_u512_lt x)]
  · simp [natToBE_length]

/-- C4 (witness): the toy Group-2 point 3 encodes to the tag `0x0a`
followed by the 64-byte big-endian serialization of 3. -/
theorem C4_witness :
    PublicKey.to_compressed toyProvider ⟨(3 : ZMod tq)⟩ =
      Except.ok (0x0a :: natToBE 3 64) := by
  have h := (C4_g2_encoding toyProvider ⟨(3 : ZMod tq)⟩
    ⟨(((3 : ZMod tq).val : ℕ) : Fq), 0⟩ ⟨(((3 : ZMod tq).val : ℕ) : Fq), 0⟩ rfl).1
  rw [h]
  rfl

/-- C5: decoding the compressed encoding of a valid Group-1 point yields
the point again, and likewise for Group-2 through `PublicKey`; proved for
every provider satisfying the spec's codec contract. -/
theorem C5_roundtrip (P : Provider) (hok : ProviderOk P) :
    (∀ (pt : P.G1) bytes, to_compressed_g1 P pt = Except.ok bytes →
      P.g1FromCompressed bytes = Except.ok pt) ∧
    (∀ (pub : PublicKey P) bytes, PublicKey.to_compressed P pub = Except.ok bytes →
      PublicKey.from_compressed P bytes = Except.ok pub) := by
  constructor
  · exact fun pt bytes h => g1_encode_then_decode P hok pt bytes h
  · intro pub bytes h
    unfold PublicKey.from_compressed
    rw [g2_encode_then_decode P hok pub bytes h]
    rfl

/-- C5 (witness): round trip at the toy Group-1 point 2, whose encoding is
the tag `0x02` followed by the 32 big-endian bytes of 2. -/
theorem C5_witness :
    toyProvider.g1FromCompressed (2 :: natToBE 2 32) = Except.ok ((2 : ZMod tq)) :=
  (C5_roundtrip toyProvider toyProviderOk).1 (2 : ZMod tq) (2 :: natToBE 2 32) rfl

/-- C6: `derive_public_key` only reads the first 32 bytes of the secret
key (its result on any key of length at least 32 equals its result on the
truncated key), while `sign` parses the whole slice; at the 33-byte key
`skLong` the two parsed scalars are 263 and 1, which differ, and the
signatures produced from `skLong` and from its 32-byte truncation
differ. -/
theorem C6_scalar_slice_mismatch :
    (∀ (P : Provider) (sk : List ℕ), 32 ≤ sk.length →
      derive_public_key P sk = derive_public_key P (sk.take 32)) ∧
    toyProvider.frFromSlice skLong = Except.ok ((263 : ZMod tq)) ∧
    toyProvider.frFromSlice (skLong.take 32) = Except.ok ((1 : ZMod tq)) ∧
    ((263 : ZMod tq)) ≠ ((1 : ZMod tq)) ∧
    sign toyProvider skLong msg0 = some (Except.ok sigLongB) ∧
    sign toyProvider (skLong.take 32) msg0 = some (Except.ok (2 :: natToBE 2 32)) ∧
    sigLongB ≠ 2 :: natToBE 2 32 := by
  refine ⟨?_, rfl, rfl, by decide, rfl, rfl, by decide⟩
  intro P sk h32
  unfold derive_public_key
  have htt : (sk.take 32).take 32 = sk.take 32 := by
    rw [List.take_take]
    norm_num
  have hlen2 : 32 ≤ (sk.take 32).length := by
    rw [List.length_take]
    omega
  rw [if_pos h32, if_pos hlen2, htt]

/-- C6 (witness): the first conjunct applied at the 33-byte key. -/
theorem C6_witness :
    derive_public_key toyProvider skLong = derive_public_key toyProvider (skLong.take 32) :=
  C6_scalar_slice_mismatch.1 toyProvider skLong (by decide)

/-- C7: a Group-1 point with no affine normalization (the identity) is
rejected by `to_compressed_g1` with the `InvalidPoint` error. -/
theorem C7_encode_nonaffine_fails (P : Provider) (pt : P.G1)
    (h : P.g1ToAffine pt = none) :
    to_compressed_g1 P pt = Except.error Error.InvalidPoint := by
  unfold to_compressed_g1
  rw [h]

/-- C7 (witness): the toy identity point. -/
theorem C7_witness :
    to_compressed_g1 toyProvider toyProvider.g1Zero =
      Except.error Error.InvalidPoint :=
  C7_encode_nonaffine_fails toyProvider toyProvider.g1Zero (by rfl)

/-- C8: hash-to-curve ignores its public-key argument (the parameter is
never mixed into the hashed buffer), so its result is a function of the
message alone and two invocations on the same message agree. -/
theorem C8_hash_ignores_public_key (P : Provider) (pk1 pk2 msg : List ℕ) :
    hash_to_try_and_increment P pk1 msg = hash_to_try_and_increment P pk2 msg :=
  rfl

/-- C9: aggregating the empty list fails: the fold starts from the group
identity, whose compression is rejected with `InvalidPoint` because the
identity has no affine form. -/
theorem C9_empty_aggregation_fails (P : Provider) (hok : ProviderOk P) :
    aggregate_public_keys P [] = Except.error Error.InvalidPoint ∧
    aggregate_signatures P [] = Except.error Error.InvalidPoint := by
  constructor
  · show PublicKey.to_compressed P ⟨P.g2Zero⟩ = Except.error Error.InvalidPoint
    unfold PublicKey.to_compressed
    rw [hok.g2_affine_zero]
  · show to_compressed_g1 P P.g1Zero = Except.error Error.InvalidPoint
    unfold to_compressed_g1
    rw [hok.g1_affine_zero]

/-- C9 (witness): at the toy provider. -/
theorem C9_witness :
    aggregate_public_keys toyProvider [] = Except.error Error.InvalidPoint ∧
    aggregate_signatures toyProvider [] = Except.error Error.InvalidPoint :=
  ⟨(C9_empty_aggregation_fails toyProvider toyProviderOk).1,
   (C9_empty_aggregation_fails toyProvider toyProviderOk).2⟩

/-- C10: for secret keys shorter than 32 bytes, `derive_public_key` (and
`sign`, which calls it first) does not return a typed error: the slice
`&secret_key[0..32]` is out of bounds and the Rust code panics, modelled
as `none`. -/
theorem C10_short_key_not_total (P : Provider) (sk : List ℕ)
    (h : sk.length < 32) :
    derive_public_key P sk = none ∧ ∀ msg, sign P sk msg = none := by
  have hd : derive_public_key P sk = none := by
    unfold derive_public_key
    rw [if_neg (by omega)]
  refine ⟨hd, fun msg => ?_⟩
  unfold sign
  rw [hd]

/-- C10 (witness): the empty secret key. -/
theorem C10_witness :
    derive_public_key toyProvider [] = none ∧ sign toyProvider [] msg0 = none :=
  ⟨(C10_short_key_not_total toyProvider [] (by norm_num)).1,
   (C10_short_key_not_total toyProvider [] (by norm_num)).2 msg0⟩

end BLSBn128
